import Mathlib

/-!
Verification of the rust-tugraph binding layer: a shallow embedding of the
crate's error translation, transaction finalization, cursor protocol, lazy
iterator adaptors and field-data conversions, with theorems settling the
frozen claims about the crate.

Conventions of the embedding:
* Rust `Result<T, Error>` becomes `Except Error T`.
* A Rust panic (`unwrap` / `expect` on a failing value) is modelled by
  `Option.none` or by an explicit `terminated` outcome, never by a value.
* The foreign engine (TuGraph's C ABI) is an external collaborator; where a
  claim depends on engine behaviour, the engine is modelled from the spec and
  the definition's doc comment says so.
-/

namespace Tugraph

/-- The error classification ported from lgraph_exceptions.h, from
`ErrorKind` in src/lib.rs. -/
inductive ErrorKind where
  | invalidParameter
  | outOfRange
  | invalidGalaxy
  | invalidGraphDB
  | invalidTxn
  | invalidIterator
  | invalidFork
  | txnConflict
  | writeNotAllowed
  | dbNotExist
  | ioError
  | unauthorized
  | other
deriving DecidableEq, Repr

/-- The structured error: it carries the message from `what()` yielded by the
engine's C++ exception, from `Error` in src/lib.rs. -/
structure Error where
  message : String
deriving DecidableEq, Repr

/-- Embedding of `Error::kind` from src/lib.rs lines 102-117: the classification is an
exact string match of the message against a fixed table; any unmatched
message classifies as `other`. -/
def Error.kind (e : Error) : ErrorKind :=
  match e.message with
  | "Invalid parameter." => .invalidParameter
  | "Invalid Galaxy." => .invalidGalaxy
  | "Invalid GraphDB." => .invalidGraphDB
  | "Invalid transaction." => .invalidTxn
  | "Invalid iterator." => .invalidIterator
  | "Write transactions cannot be forked." => .invalidFork
  | "Transaction conflicts with an earlier one." => .txnConflict
  | "Access denied." => .writeNotAllowed
  | "The specified TuGraph DB does not exist." => .dbNotExist
  | "IO Error." => .ioError
  | "Unauthorized." => .unauthorized
  | _ => .other

/-- The exact exception texts appearing in the match table of `Error::kind`
(src/lib.rs lines 104-114). -/
def knownMessages : List String :=
  ["Invalid parameter.", "Invalid Galaxy.", "Invalid GraphDB.",
   "Invalid transaction.", "Invalid iterator.",
   "Write transactions cannot be forked.",
   "Transaction conflicts with an earlier one.", "Access denied.",
   "The specified TuGraph DB does not exist.", "IO Error.", "Unauthorized."]

/-- The `ffi_try` protocol from src/raw/ffi_util.rs lines 80-90: a foreign
call fills an error-message slot; a non-null slot (`some msg`) converts into
the structured `Error` built from the message and the primary return value is
discarded; a null slot (`none`) returns the value. -/
def ffiTry {α : Type} (err : Option String) (result : α) : Except Error α :=
  match err with
  | some msg => .error ⟨msg⟩
  | none => .ok result

/-- Events observable on a native transaction handle, used to describe in
which order the foreign calls of src/raw/txn.rs happen on one handle. -/
inductive TxnEvent where
  | commitCall
  | abortCall
  | destroyCall
deriving DecidableEq, Repr

/-- The foreign calls issued by `Drop for RawTransaction`
(src/raw/txn.rs lines 37-45): abort the transaction, then destroy the
handle. -/
def rawTransactionDropEvents : List TxnEvent :=
  [.abortCall, .destroyCall]

/-- The foreign calls issued on the handle by `RawTransaction::commit(self)`
(src/raw/txn.rs lines 60-62) including Rust's drop glue: the body performs
the commit call; `self` is moved into `commit` and nothing forgets or
invalidates it (the crate contains no `mem::forget`/`ManuallyDrop` and
`commit` does not call `into_ptr_mut`), so when `self` goes out of scope at
the end of `commit` the `Drop` impl still runs on the same pointer. -/
def rawTransactionCommitEvents : List TxnEvent :=
  [.commitCall] ++ rawTransactionDropEvents

/-- The foreign calls issued on the handle by `RawTransaction::abort(self)`
(src/raw/txn.rs lines 64-66) including Rust's drop glue, by the same
reasoning as for `rawTransactionCommitEvents`. -/
def rawTransactionAbortEvents : List TxnEvent :=
  [.abortCall] ++ rawTransactionDropEvents

/-- Outcome of a scope-exit finalizer. -/
inductive FinalizeOutcome where
  | completed
  | terminated (expectMsg : String)
deriving DecidableEq, Repr

/-- Embedding of `Drop for RawTransaction` (src/raw/txn.rs lines 37-45) as a function of
the error slot filled by the foreign abort call: `ffi_try!(..abort..)
.expect("failed to drop transaction")` turns a failing close into forced
termination; on success the handle is destroyed and the finalizer
completes. -/
def rawTransactionDropRun (abortErr : Option String) : FinalizeOutcome :=
  match ffiTry abortErr () with
  | .error _ => .terminated "failed to drop transaction"
  | .ok _ => .completed

/-- Embedding of `RawTransaction::commit` as seen by the caller (src/raw/txn.rs lines
60-62): the foreign commit call goes through `ffi_try`, so a filled error
slot becomes a structured `Error` propagated unchanged. -/
def rawTransactionCommitResult (commitErr : Option String) : Except Error Unit :=
  ffiTry commitErr ()

/-- Number of days from the Common Era origin (0001-01-01 is day 1) of
January 1st of proleptic Gregorian year `y`: the day-numbering used by
chrono's `num_days_from_ce`. -/
def daysFromCEOfJan1 (y : Int) : Int :=
  365 * (y - 1) + (y - 1).fdiv 4 - (y - 1).fdiv 100 + (y - 1).fdiv 400 + 1

/-- Model of the chrono crate: the smallest day number of a representable
`NaiveDate` (chrono's `NaiveDate::MIN` is January 1st of year -262144). -/
def chronoMinDays : Int := daysFromCEOfJan1 (-262144)

/-- Model of the chrono crate: the largest day number of a representable
`NaiveDate` (chrono's `NaiveDate::MAX` is December 31st of year 262143). -/
def chronoMaxDays : Int := daysFromCEOfJan1 262144 - 1

/-- A day number representable by a chrono `NaiveDate`. -/
def dateInRange (days : Int) : Prop :=
  chronoMinDays ≤ days ∧ days ≤ chronoMaxDays

instance (days : Int) : Decidable (dateInRange days) := by
  unfold dateInRange; infer_instance

/-- Model of the chrono crate: a `NaiveDate` is determined by its number of
days from the Common Era origin, which must lie in chrono's representable
range. -/
structure ChronoDate where
  days : Int
  valid : dateInRange days

/-- Model of chrono's `NaiveDate::from_num_days_from_ce_opt`: `none` exactly
outside the representable range. -/
def fromNumDaysFromCEOpt (days : Int) : Option ChronoDate :=
  if h : dateInRange days then some ⟨days, h⟩ else none

/-- The day number of the Unix epoch 1970-01-01 in the Common Era
day-numbering (chrono: `NaiveDate::from_ymd(1970, 1, 1).num_days_from_ce()`
= 719163). -/
def epochDays : Int := 719163

/-- A Unix timestamp (whole seconds) whose calendar day is representable by
a chrono `NaiveDate`, hence by a `NaiveDateTime`. -/
def timestampInRange (secs : Int) : Prop :=
  dateInRange (epochDays + secs.fdiv 86400)

instance (secs : Int) : Decidable (timestampInRange secs) := by
  unfold timestampInRange; infer_instance

/-- Model of the chrono crate: a `NaiveDateTime` as the binding layer
observes it — a whole-second Unix timestamp (chrono's `timestamp()`) plus a
subsecond nanosecond component (`2000000000` allows chrono's leap-second
representation). -/
structure ChronoDateTime where
  secs : Int
  nsecs : Nat
  validSecs : timestampInRange secs
  validNsecs : nsecs < 2000000000

/-- Model of chrono's `NaiveDateTime::from_timestamp_opt(secs, 0)`: `none`
exactly when the timestamp's day falls outside the representable date
range; the subsecond component of the result is zero. -/
def fromTimestampOpt (secs : Int) : Option ChronoDateTime :=
  if h : timestampInRange secs then some ⟨secs, 0, h, by omega⟩ else none

/-- A typed attribute value of a graph element: the closed tagged union
`FieldData` from src/field.rs lines 79-93.  Machine integers are carried as
mathematical integers (the crate passes them through the foreign boundary
bit-for-bit, so ranges play no role in the claims), `f32`/`f64` payloads are
carried as their opaque bit patterns which the foreign boundary likewise
preserves, a Rust `String` is a Lean `String`, a `Vec<u8>` blob is a list of
byte values, and the `Date`/`DateTime` payloads are the chrono models
above. -/
inductive FieldData where
  | null
  | boolean (b : Bool)
  | int8 (i : Int)
  | int16 (i : Int)
  | int32 (i : Int)
  | int64 (i : Int)
  | float (bits : Nat)
  | double (bits : Nat)
  | date (d : ChronoDate)
  | datetime (dt : ChronoDateTime)
  | str (s : String)
  | blob (bytes : List Nat)

/-- Whether a Rust string contains an interior NUL character (in UTF-8 the
byte `0` occurs exactly in the encoding of the character `U+0000`), the
condition under which `CString::new` fails and the `into_c_string().unwrap()`
of src/raw/field_data.rs line 116 panics. -/
def stringHasNul (s : String) : Prop :=
  Char.ofNat 0 ∈ s.data

instance (s : String) : Decidable (stringHasNul s) := by
  unfold stringHasNul; infer_instance

/-- Reading a C string out of a buffer holding `bytes` followed by a NUL
terminator (`CStr::from_ptr` in `ffi_util::from_cstr`,
src/raw/ffi_util.rs lines 28-31): the bytes before the first zero. -/
def readCString (bytes : List Nat) : List Nat :=
  bytes.takeWhile (· ≠ 0)

/-- Whether a byte is a UTF-8 continuation byte (`0x80..=0xBF`), for the
model of `String::from_utf8_lossy` used by `ffi_util::from_cstr`. -/
def isUtf8Cont (b : Nat) : Bool := 0x80 ≤ b && b ≤ 0xBF

/-- Admissible first continuation byte after a three-byte leading byte `b`
(`0xE0..=0xEF`), per the UTF-8 validation Rust's standard library uses:
`0xE0` requires `0xA0..=0xBF` (no overlong forms) and `0xED` requires
`0x80..=0x9F` (no surrogates). -/
def utf8Cont1OkE (b c1 : Nat) : Bool :=
  if b = 0xE0 then 0xA0 ≤ c1 && c1 ≤ 0xBF
  else if b = 0xED then 0x80 ≤ c1 && c1 ≤ 0x9F
  else isUtf8Cont c1

/-- Admissible first continuation byte after a four-byte leading byte `b`
(`0xF0..=0xF4`), per the UTF-8 validation Rust's standard library uses:
`0xF0` requires `0x90..=0xBF` (no overlong forms) and `0xF4` requires
`0x80..=0x8F` (nothing above U+10FFFF). -/
def utf8Cont1OkF (b c1 : Nat) : Bool :=
  if b = 0xF0 then 0x90 ≤ c1 && c1 ≤ 0xBF
  else if b = 0xF4 then 0x80 ≤ c1 && c1 ≤ 0x8F
  else isUtf8Cont c1

/-- The UTF-8 encoding of U+FFFD REPLACEMENT CHARACTER, which
`String::from_utf8_lossy` substitutes for each maximal invalid subpart. -/
def utf8ReplacementBytes : List Nat := [0xEF, 0xBF, 0xBD]

/-- Continuation of the lossy decoder after a two-byte leading byte `b`:
consume one continuation byte, or substitute U+FFFD — for an invalid
follow-up byte only `b` is skipped (error length 1) and decoding resumes at
that byte, for a truncated tail the whole incomplete sequence becomes one
U+FFFD.  `k` decodes the remaining bytes. -/
def utf8Lossy2 (k : List Nat → List Nat) (b : Nat) : List Nat → List Nat
  | [] => utf8ReplacementBytes
  | c1 :: rest1 =>
    if isUtf8Cont c1 then b :: c1 :: k rest1
    else utf8ReplacementBytes ++ k (c1 :: rest1)

/-- Second continuation byte of a three-byte sequence `b c1 _` in the lossy
decoder; on an invalid follow-up the two consumed bytes become one U+FFFD
(error length 2) and decoding resumes. -/
def utf8Lossy3b (k : List Nat → List Nat) (b c1 : Nat) : List Nat → List Nat
  | [] => utf8ReplacementBytes
  | c2 :: rest2 =>
    if isUtf8Cont c2 then b :: c1 :: c2 :: k rest2
    else utf8ReplacementBytes ++ k (c2 :: rest2)

/-- First continuation byte of a three-byte sequence led by `b` in the lossy
decoder; an inadmissible first continuation skips only `b` (error length
1). -/
def utf8Lossy3 (k : List Nat → List Nat) (b : Nat) : List Nat → List Nat
  | [] => utf8ReplacementBytes
  | c1 :: rest1 =>
    if utf8Cont1OkE b c1 then utf8Lossy3b k b c1 rest1
    else utf8ReplacementBytes ++ k (c1 :: rest1)

/-- Third continuation byte of a four-byte sequence `b c1 c2 _` in the
lossy decoder; on an invalid follow-up the three consumed bytes become one
U+FFFD (error length 3). -/
def utf8Lossy4c (k : List Nat → List Nat) (b c1 c2 : Nat) :
    List Nat → List Nat
  | [] => utf8ReplacementBytes
  | c3 :: rest3 =>
    if isUtf8Cont c3 then b :: c1 :: c2 :: c3 :: k rest3
    else utf8ReplacementBytes ++ k (c3 :: rest3)

/-- Second continuation byte of a four-byte sequence `b c1 _` in the lossy
decoder; on an invalid follow-up the two consumed bytes become one U+FFFD
(error length 2). -/
def utf8Lossy4b (k : List Nat → List Nat) (b c1 : Nat) : List Nat → List Nat
  | [] => utf8ReplacementBytes
  | c2 :: rest2 =>
    if isUtf8Cont c2 then utf8Lossy4c k b c1 c2 rest2
    else utf8ReplacementBytes ++ k (c2 :: rest2)

/-- First continuation byte of a four-byte sequence led by `b` in the lossy
decoder; an inadmissible first continuation skips only `b` (error length
1). -/
def utf8Lossy4 (k : List Nat → List Nat) (b : Nat) : List Nat → List Nat
  | [] => utf8ReplacementBytes
  | c1 :: rest1 =>
    if utf8Cont1OkF b c1 then utf8Lossy4b k b c1 rest1
    else utf8ReplacementBytes ++ k (c1 :: rest1)

/-- Model of Rust's `String::from_utf8_lossy` at the byte level, as a
fuel-indexed recursion (every step consumes at least one byte, so the
input's length is enough fuel): ASCII bytes pass through; well-formed two-,
three- and four-byte sequences pass through; each maximal invalid subpart —
a stray or overlong leading byte (error length 1 for `0x80..=0xC1` and
`0xF5..`), a partially valid prefix (error lengths 1-3 via the helpers
above), or an incomplete sequence at the end of the input — is replaced by
one U+FFFD. -/
def utf8LossyBytesAux : Nat → List Nat → List Nat
  | _, [] => []
  | 0, _ :: _ => []
  | fuel + 1, b :: rest =>
    if b < 0x80 then b :: utf8LossyBytesAux fuel rest
    else if 0xC2 ≤ b ∧ b ≤ 0xDF then utf8Lossy2 (utf8LossyBytesAux fuel) b rest
    else if 0xE0 ≤ b ∧ b ≤ 0xEF then utf8Lossy3 (utf8LossyBytesAux fuel) b rest
    else if 0xF0 ≤ b ∧ b ≤ 0xF4 then utf8Lossy4 (utf8LossyBytesAux fuel) b rest
    else utf8ReplacementBytes ++ utf8LossyBytesAux fuel rest

/-- The bytes of `String::from_utf8_lossy(bytes).into_owned().into_bytes()`:
the lossy decoder run with the input's length as fuel. -/
def utf8LossyBytes (bytes : List Nat) : List Nat :=
  utf8LossyBytesAux bytes.length bytes

/-- One byte of a UTF-8 validity check: `ok` constrains the next byte and
`k` checks the remainder; an empty remainder is invalid (truncated
sequence). -/
def validUtf8First (ok : Nat → Bool) (k : List Nat → Bool) :
    List Nat → Bool
  | [] => false
  | c :: rest => ok c && k rest

/-- Fuel-indexed UTF-8 validity of a byte list, mirroring the branch
structure of `utf8LossyBytesAux`: valid exactly when the lossy decoder
passes every byte through unchanged. -/
def validUtf8Aux : Nat → List Nat → Bool
  | _, [] => true
  | 0, _ :: _ => false
  | fuel + 1, b :: rest =>
    if b < 0x80 then validUtf8Aux fuel rest
    else if 0xC2 ≤ b ∧ b ≤ 0xDF then
      validUtf8First isUtf8Cont (validUtf8Aux fuel) rest
    else if 0xE0 ≤ b ∧ b ≤ 0xEF then
      validUtf8First (utf8Cont1OkE b)
        (validUtf8First isUtf8Cont (validUtf8Aux fuel)) rest
    else if 0xF0 ≤ b ∧ b ≤ 0xF4 then
      validUtf8First (utf8Cont1OkF b)
        (validUtf8First isUtf8Cont
          (validUtf8First isUtf8Cont (validUtf8Aux fuel))) rest
    else false

/-- Whether a byte list is well-formed UTF-8 (the domain on which
`String::from_utf8_lossy` is the identity on bytes). -/
def validUtf8 (bytes : List Nat) : Bool :=
  validUtf8Aux bytes.length bytes

/-- The foreign `lgraph_api_field_data_t` value as the engine stores it: one
constructor per `FieldType` tag (src/field.rs lines 29-42), holding exactly
the payload the paired `lgraph_api_create_field_data_*` constructor of
src/raw/field_data.rs was given — the engine is an exact store, dates are
kept as their day count (`RawDate`, src/raw/types.rs lines 45-74) and
date-times as their seconds count (`RawDateTime`, src/raw/types.rs lines
82-125). -/
inductive RawFieldData where
  | rnull
  | rbool (b : Bool)
  | rint8 (i : Int)
  | rint16 (i : Int)
  | rint32 (i : Int)
  | rint64 (i : Int)
  | rfloat (bits : Nat)
  | rdouble (bits : Nat)
  | rdate (days : Int)
  | rdatetime (secs : Int)
  | rstring (s : String)
  | rblob (bytes : List Nat)

/-- Embedding of `Date::as_raw_date` (src/types.rs lines 144-147): the raw date holds the
date's `num_days_from_ce()`. -/
def ChronoDate.asRawDate (d : ChronoDate) : Int :=
  d.days

/-- Embedding of `Date::from_raw_date` (src/types.rs lines 138-143): rebuild the chrono
date from the raw day count and `unwrap()` — the panic on an unrepresentable
day count is `none`. -/
def dateFromRawDate (days : Int) : Option ChronoDate :=
  fromNumDaysFromCEOpt days

/-- Embedding of `DateTime::as_raw_datetime` (src/types.rs lines 225-227): the raw
date-time holds the value's whole-second `timestamp()`; subsecond
nanoseconds are not stored. -/
def ChronoDateTime.asRawDateTime (dt : ChronoDateTime) : Int :=
  dt.secs

/-- Embedding of `DateTime::from_raw_datetime` (src/types.rs lines 219-223): rebuild the
chrono date-time from the raw seconds count with
`from_timestamp_opt(secs, 0)` and `unwrap()` — the panic on an
unrepresentable seconds count is `none`. -/
def dateTimeFromRawDateTime (secs : Int) : Option ChronoDateTime :=
  fromTimestampOpt secs

/-- Embedding of `FieldData::as_raw_field_data` (src/field.rs lines 117-134): build the
foreign value variant by variant.  The only fallible step is
`RawFieldData::from_str`, whose `into_c_string().unwrap()` panics (`none`)
on a string with an interior NUL; blobs are passed as pointer plus length
and dates/date-times through the conversions above. -/
def FieldData.asRawFieldData : FieldData → Option RawFieldData
  | .null => some .rnull
  | .boolean b => some (.rbool b)
  | .int8 i => some (.rint8 i)
  | .int16 i => some (.rint16 i)
  | .int32 i => some (.rint32 i)
  | .int64 i => some (.rint64 i)
  | .float bits => some (.rfloat bits)
  | .double bits => some (.rdouble bits)
  | .date d => some (.rdate d.asRawDate)
  | .datetime dt => some (.rdatetime dt.asRawDateTime)
  | .str s => if stringHasNul s then none else some (.rstring s)
  | .blob bytes => some (.rblob bytes)

/-- Embedding of `FieldData::from_raw_field_data` (src/field.rs lines 96-115): dispatch
on the foreign value's type tag and read the matching payload.  The date and
date-time arms `unwrap()` the chrono conversions (`none` on panic); the
string arm reads the stored NUL-free C string back exactly
(`as_string_unchecked` goes through `to_rust_string` → `from_cstr`, whose
`String::from_utf8_lossy` is the identity on a Rust `String`'s bytes, which
are valid UTF-8 by construction); the blob arm reads the blob buffer through
the same path (`as_blob_unchecked` is
`to_rust_string(..).into_bytes()`), so it takes the stored bytes up to the
first zero AND runs them through the lossy UTF-8 decode, mangling non-UTF-8
byte sequences into U+FFFD. -/
def FieldData.fromRawFieldData : RawFieldData → Option FieldData
  | .rnull => some .null
  | .rbool b => some (.boolean b)
  | .rint8 i => some (.int8 i)
  | .rint16 i => some (.int16 i)
  | .rint32 i => some (.int32 i)
  | .rint64 i => some (.int64 i)
  | .rfloat bits => some (.float bits)
  | .rdouble bits => some (.double bits)
  | .rdate days => (dateFromRawDate days).map .date
  | .rdatetime secs => (dateTimeFromRawDateTime secs).map .datetime
  | .rstring s => some (.str s)
  | .rblob bytes => some (.blob (utf8LossyBytes (readCString bytes)))

/-- The round trip of claim C5: convert a `FieldData` to its foreign
representation with `as_raw_field_data`, then back with
`from_raw_field_data`; `none` when either direction panics. -/
def FieldData.roundTrip (fd : FieldData) : Option FieldData :=
  fd.asRawFieldData.bind FieldData.fromRawFieldData

/-- The values on which the round trip can reproduce the input byte-for-byte
given the representations the crate uses at the foreign boundary: date-times
must carry no subsecond nanoseconds (only `timestamp()` seconds are stored),
strings must be free of interior NULs (`CString::new` rejects them) and
blobs must be free of zero bytes (they are read back through C-string
decoding, which stops at the first NUL) and be well-formed UTF-8 (the
read-back goes through `String::from_utf8_lossy`, which replaces invalid
byte sequences with U+FFFD). -/
def FieldData.admissible : FieldData → Prop
  | .datetime dt => dt.nsecs = 0
  | .str s => ¬ stringHasNul s
  | .blob bytes => 0 ∉ bytes ∧ validUtf8 bytes = true
  | _ => True

instance : (fd : FieldData) → Decidable fd.admissible := by
  intro fd; unfold FieldData.admissible; cases fd <;> infer_instance

/-- A `DateTime` value with a subsecond component: half past the Unix
epoch second, `DateTime::from_native` of 1970-01-01 00:00:00.500. -/
def halfPastEpoch : ChronoDateTime :=
  ⟨0, 500000000, by decide, by decide⟩

/-- One vertex of the graph as the read side of the cursor protocol sees it:
its id (the primary key the engine orders vertices by), its label and its
named field values. -/
structure Vertex where
  id : Int
  label : String
  fields : List (String × FieldData)

/-- Modelled from the spec: the state of the engine's vertex iterator.  The
engine keeps the vertices of the graph in ascending id order; the iterator
is a position in that sequence, and any position past the end is the
Invalid state ("a position within an ordered sequence of graph elements"
with "a binary validity flag"). -/
structure RawVertexCursor where
  verts : List Vertex
  pos : Nat

/-- Embedding of `RawVertexCursor::is_valid` (src/raw/mod.rs, `raw_core_cursor_rustlize`):
a direct engine query; in the model the iterator is valid exactly while its
position lies inside the sequence. -/
def RawVertexCursor.isValid (c : RawVertexCursor) : Bool :=
  c.pos < c.verts.length

/-- Modelled from the spec: the engine's `next` moves to the next element in
key order and reports whether a next element existed, invalidating the
iterator when not ("`advance()`: moves to the next element in key order;
returns whether a next element existed (Invalid if not)"); advancing an
already Invalid iterator is a no-op reporting no next. -/
def RawVertexCursor.next (c : RawVertexCursor) : Bool × RawVertexCursor :=
  if c.pos + 1 < c.verts.length then
    (true, { c with pos := c.pos + 1 })
  else
    (false, { c with pos := c.verts.length })

/-- Index of the first vertex whose id is `≥ vid`, or the length of the list
when every id is smaller: the position the engine's ordered seek lands
on. -/
def findGeIdx (vid : Int) : List Vertex → Nat
  | [] => 0
  | v :: vs => if vid ≤ v.id then 0 else findGeIdx vid vs + 1

/-- Modelled from the spec: the engine's `goto` behind
`RawVertexCursor::goto` (src/raw/vertex.rs lines 45-55).  Per the spec's
seek contract, an exact match moves there; a missing key with
`nearest = true` moves to the next element `≥ vid` when one exists;
otherwise the iterator becomes Invalid.  The returned flag reports whether
the iterator landed on an element. -/
def RawVertexCursor.goto (c : RawVertexCursor) (vid : Int) (nearest : Bool) :
    Bool × RawVertexCursor :=
  let i := findGeIdx vid c.verts
  match c.verts.get? i with
  | some v =>
      if v.id = vid ∨ nearest then (true, { c with pos := i })
      else (false, { c with pos := c.verts.length })
  | none => (false, { c with pos := c.verts.length })

/-- The vertex the cursor currently points at, when it is valid. -/
def RawVertexCursor.current (c : RawVertexCursor) : Option Vertex :=
  c.verts.get? c.pos

/-- Embedding of `TxnRead::vertex_cur` (src/txn.rs lines 413-415) together with the
engine's `get_vertex_iterator`: a freshly created read cursor points at the
first vertex, and is Invalid when the graph has no vertex. -/
def txnVertexCur (verts : List Vertex) : RawVertexCursor :=
  ⟨verts, 0⟩

/-- Embedding of `VertexCursor::seek_to_next` (src/cursor/vertex.rs lines 170-176): calls
the raw `next` and wraps its flag, `Ok(Some(self))` when a next element
existed and `Ok(None)` otherwise; the boolean of the pair records which of
the two was returned, and the second component is the cursor after the
call.  In the engine model the raw call's error slot stays null, so the
result is always `ok`. -/
def VertexCursor.seekToNext (c : RawVertexCursor) :
    Except Error (Bool × RawVertexCursor) :=
  .ok c.next

/-- Embedding of `VertexCursor::seek` (src/cursor/vertex.rs lines 178-182): delegates to
the raw `goto` and returns the cursor (the `debug_assert!` on the flag is
compiled out of release builds and does not affect the returned value). -/
def VertexCursor.seek (c : RawVertexCursor) (vid : Int) (nearest : Bool) :
    Except Error RawVertexCursor :=
  .ok (c.goto vid nearest).2

/-- The cursor after `VertexCursor.seekToNext` iterated `k` times, keeping only the cursor
state. -/
def advanceN (c : RawVertexCursor) : Nat → RawVertexCursor
  | 0 => c
  | k + 1 => advanceN c.next.2 k

/-- The method dictionary of the `VertexCursor` trait as the lazy sequence
adaptors of src/cursor/iter.rs use it: the adaptors are generic over any
`T: VertexCursor`, so they are embedded generically over a state type `σ`
with the read accessors (fallible, state-preserving) and the advancing
`seek_to_next` (fallible, always leaving a successor state since it takes
`&mut self`). -/
structure CursorOps (σ : Type) where
  isValid : σ → Bool
  getId : σ → Except Error Int
  getLabel : σ → Except Error String
  getAllFields : σ → Except Error (List (String × FieldData))
  seekToNext : σ → Except Error Bool × σ

/-- Embedding of `Iterator::next` for `IntoVertexIter` (src/cursor/iter.rs lines 39-59):
yield `none` when the wrapped cursor is Invalid; otherwise read the current
vertex's id, label and all field values (each `.expect(..)`, so a failing
read is forced termination, modelled by `Except.error` of the expect
message), then advance the cursor discarding the advance call's result
(`let _ = self.cursor.seek_to_next();`), and yield the values read before
the advance. -/
def intoVertexIterNext {σ : Type} (ops : CursorOps σ) (c : σ) :
    Except String (Option ((Int × String × List FieldData) × σ)) :=
  if ops.isValid c then
    match ops.getId c with
    | .error _ => .error "valid iterator should get value"
    | .ok id =>
      match ops.getLabel c with
      | .error _ => .error "valid iterator should get value"
      | .ok label =>
        match ops.getAllFields c with
        | .error _ => .error "valid iterator should get value"
        | .ok all =>
          let c' := (ops.seekToNext c).2
          .ok (some ((id, label, all.map (·.2)), c'))
  else
    .ok none

/-- Embedding of `Iterator::next` for `IntoVertexIds` (src/cursor/iter.rs lines 75-85):
the ids-only projection of the same adaptor shape — validity check, read the
id, advance discarding the advance call's result, yield the id read before
the advance. -/
def intoVertexIdsNext {σ : Type} (ops : CursorOps σ) (c : σ) :
    Except String (Option (Int × σ)) :=
  if ops.isValid c then
    match ops.getId c with
    | .error _ => .error "valid iterator should get value"
    | .ok id =>
      let c' := (ops.seekToNext c).2
      .ok (some (id, c'))
  else
    .ok none

/-- The `VertexCursor` dictionary of the engine-model cursor: the accessors
read the current vertex (an accessor on an Invalid cursor surfaces the
engine's error, per the spec "calling on Invalid is a programming error
surfaced as an engine-level error"), and `seek_to_next` is the wrapper
around the raw `next`. -/
def engineOps : CursorOps RawVertexCursor where
  isValid := RawVertexCursor.isValid
  getId c :=
    match c.current with
    | some v => .ok v.id
    | none => .error ⟨"Invalid iterator."⟩
  getLabel c :=
    match c.current with
    | some v => .ok v.label
    | none => .error ⟨"Invalid iterator."⟩
  getAllFields c :=
    match c.current with
    | some v => .ok v.fields
    | none => .error ⟨"Invalid iterator."⟩
  seekToNext c := (.ok c.next.1, c.next.2)

/-- A concrete single-position cursor whose advancing foreign call fails
with an `IO Error.` while its reads succeed — the kind of state a raw cursor
reaches when the engine rejects the `next` call (for example after its
transaction was invalidated between pulls). -/
def faultyCursorOps : CursorOps Unit where
  isValid _ := true
  getId _ := .ok 7
  getLabel _ := .ok "person"
  getAllFields _ := .ok []
  seekToNext _ := (.error ⟨"IO Error."⟩, ())

/-- Embedding of `RawVertexCursor::delete` (src/raw/vertex.rs lines 161-173): two `usize`
slots `(n_in_edges, n_out_edges)` are initialised to zero and passed to the
foreign delete, which writes into them (`written`) and may fill the error
slot; on success the function returns `Ok((n_in_edges, n_out_edges))` — the
two written counts, in that order. -/
def rawVertexCursorDelete (written : Nat × Nat) (err : Option String) :
    Except Error (Nat × Nat) :=
  match ffiTry err () with
  | .error e => .error e
  | .ok _ => .ok written

/-- Embedding of `VertexCursorMut::delete` (src/cursor/vertex.rs lines 374-376): a direct
delegation to the raw cursor's `delete`. -/
def vertexCursorMutDelete (written : Nat × Nat) (err : Option String) :
    Except Error (Nat × Nat) :=
  rawVertexCursorDelete written err

/-- The schema-level state a `Graph` handle operates on, for the schema
mutation claims: the vertex labels the database currently has, and the live
vertices as (id, label) pairs. -/
structure GraphState where
  labels : List String
  vertices : List (Int × String)

/-- Modelled from the spec: the engine behind
`Graph::delete_vertex_label` (src/db.rs lines 322-324, delegating to
`RawGraphDB::delete_vertex_label`, src/raw/db.rs lines 125-136).  Deleting
an existing vertex label removes the label and every vertex carrying it; the
foreign call returns the success flag and writes the number of removed
vertices into the `n_modified` slot, and the wrapper returns the pair
`(flag, n_modified)`.  Deleting a label the schema does not have fails with
the engine's error. -/
def graphDeleteVertexLabel (g : GraphState) (label : String) :
    Except Error ((Bool × Nat) × GraphState) :=
  if label ∈ g.labels then
    .ok ((true, (g.vertices.filter (fun v => v.2 = label)).length),
      ⟨g.labels.erase label, g.vertices.filter (fun v => ¬ v.2 = label)⟩)
  else
    .error ⟨"Invalid parameter."⟩

/-! ## Theorems -/

/-- Claim C2, counterexample: consuming a read-write transaction by
`commit` does not bypass the implicit scope-exit finalizer — `commit(self)`
neither forgets nor invalidates the handle, so the `Drop` impl still runs
when `self` leaves `commit`'s scope, and its abort call appears in the
foreign calls issued by `commit`. -/
theorem rawTransactionCommit_runs_finalizer :
    TxnEvent.abortCall ∈ rawTransactionCommitEvents := by
  decide

/-- Claim C2, amended: `commit` consumes the transaction by move but the
`Drop` finalizer still runs on the moved value, issuing one extra abort on
the already-committed handle between the commit call and the destroy call;
on the commit path, the explicit-abort path and the plain drop path alike
the native handle is destroyed exactly once. -/
theorem rawTransaction_handle_released_once :
    rawTransactionCommitEvents =
      [TxnEvent.commitCall, TxnEvent.abortCall, TxnEvent.destroyCall] ∧
    rawTransactionCommitEvents.count TxnEvent.destroyCall = 1 ∧
    rawTransactionAbortEvents.count TxnEvent.destroyCall = 1 ∧
    rawTransactionDropEvents.count TxnEvent.destroyCall = 1 := by
  decide

/-- Claim C3, counterexample: no exception text whatsoever classifies to
`OutOfRange` — the match table of `Error::kind` has no arm producing it, so
that kind of the taxonomy is unreachable from classification. -/
theorem errorKind_outOfRange_unreachable :
    ¬ ∃ e : Error, e.kind = ErrorKind.outOfRange := by
  rintro ⟨e, h⟩
  unfold Error.kind at h
  split at h <;> simp_all

/-- Claim C3, amended: `Error::kind` classifies solely by exact string
match against the fixed table; each kind of the taxonomy except `OutOfRange`
(and the catch-all `Other`) is produced by some exception text — in
particular "Invalid parameter." maps to `InvalidParameter`, "Transaction
conflicts with an earlier one." to `TxnConflict` and "Access denied." to
`WriteNotAllowed` — and every message not in the table classifies as
`Other`. -/
theorem errorKind_classification :
    Error.kind ⟨"Invalid parameter."⟩ = ErrorKind.invalidParameter ∧
    Error.kind ⟨"Transaction conflicts with an earlier one."⟩ =
      ErrorKind.txnConflict ∧
    Error.kind ⟨"Access denied."⟩ = ErrorKind.writeNotAllowed ∧
    (∀ k : ErrorKind, k ≠ ErrorKind.outOfRange → k ≠ ErrorKind.other →
      ∃ m : String, Error.kind ⟨m⟩ = k) ∧
    (∀ m : String, m ∉ knownMessages → Error.kind ⟨m⟩ = ErrorKind.other) := by
  refine ⟨rfl, rfl, rfl, ?_, ?_⟩
  · intro k hk hk'
    cases k
    case invalidParameter => exact ⟨"Invalid parameter.", rfl⟩
    case outOfRange => exact absurd rfl hk
    case invalidGalaxy => exact ⟨"Invalid Galaxy.", rfl⟩
    case invalidGraphDB => exact ⟨"Invalid GraphDB.", rfl⟩
    case invalidTxn => exact ⟨"Invalid transaction.", rfl⟩
    case invalidIterator => exact ⟨"Invalid iterator.", rfl⟩
    case invalidFork => exact ⟨"Write transactions cannot be forked.", rfl⟩
    case txnConflict =>
      exact ⟨"Transaction conflicts with an earlier one.", rfl⟩
    case writeNotAllowed => exact ⟨"Access denied.", rfl⟩
    case dbNotExist => exact ⟨"The specified TuGraph DB does not exist.", rfl⟩
    case ioError => exact ⟨"IO Error.", rfl⟩
    case unauthorized => exact ⟨"Unauthorized.", rfl⟩
    case other => exact absurd rfl hk'
  · intro m hm
    unfold Error.kind
    split
    all_goals
      first
      | rfl
      | (exfalso; apply hm; simp_all [knownMessages])

/-- Claim C3 witness: an unknown runtime-error text is not in the table and
classifies as `Other`. -/
theorem errorKind_classification_witness :
    "Other Unkown error." ∉ knownMessages ∧
    Error.kind ⟨"Other Unkown error."⟩ = ErrorKind.other :=
  ⟨by decide, errorKind_classification.2.2.2.2 "Other Unkown error." (by decide)⟩

/-- Claim C9: `VertexCursorMut::delete` returns exactly the two counts the
engine writes into its `n_in_edges` and `n_out_edges` output slots, in that
order — in-edge count first, out-edge count second — and a failing foreign
call propagates the structured error instead. -/
theorem vertexCursorMutDelete_returns_written_counts :
    (∀ nIn nOut : Nat,
      vertexCursorMutDelete (nIn, nOut) none = .ok (nIn, nOut)) ∧
    (∀ (nIn nOut : Nat) (m : String),
      vertexCursorMutDelete (nIn, nOut) (some m) = .error ⟨m⟩) :=
  ⟨fun _ _ => rfl, fun _ _ _ => rfl⟩

/-- Claim C7, counterexample: a failing foreign call that is neither
recovered into a result nor a close-on-finalize — the advancing call inside
`IntoVertexIds::next` fails with "IO Error.", yet the adaptor neither
propagates the error nor terminates: it discards the failure
(`let _ = self.cursor.seek_to_next();`) and yields the element normally. -/
theorem intoVertexIds_swallows_advance_failure :
    (faultyCursorOps.seekToNext ()).1 = .error ⟨"IO Error."⟩ ∧
    intoVertexIdsNext faultyCursorOps () = .ok (some (7, ())) :=
  ⟨rfl, rfl⟩

/-- Claim C7, amended: every failing foreign call is converted exactly once,
at the call site, by the `ffi_try` protocol into the structured error
carrying the message text, and raw-layer operations such as
`RawTransaction::commit` propagate it unchanged; an unsuccessful foreign
close during scope-exit finalization causes forced termination rather than
returning an error; but the lazy iterator adaptors do not propagate: they
turn failing reads into forced termination and silently discard a failure of
the advancing call, yielding the element read before the advance. -/
theorem errorPropagation_policy :
    (∀ (m : String) (v : Int), ffiTry (some m) v = .error ⟨m⟩) ∧
    (∀ v : Int, ffiTry none v = .ok v) ∧
    (∀ m : String, rawTransactionCommitResult (some m) = .error ⟨m⟩) ∧
    (∀ m : String,
      rawTransactionDropRun (some m) =
        .terminated "failed to drop transaction") ∧
    rawTransactionDropRun none = .completed ∧
    (∀ (σ : Type) (ops : CursorOps σ) (c : σ) (i : Int),
      ops.isValid c = true → ops.getId c = .ok i →
      intoVertexIdsNext ops c = .ok (some (i, (ops.seekToNext c).2))) := by
  refine ⟨fun _ _ => rfl, fun _ => rfl, fun _ => rfl, fun _ => rfl, rfl, ?_⟩
  intro σ ops c i hvalid hid
  unfold intoVertexIdsNext
  rw [hvalid, hid]
  simp

/-- Claim C7 witness: the amended policy applied to the concrete faulty
cursor — the adaptor yields the element even though the advance failed. -/
theorem errorPropagation_policy_witness :
    faultyCursorOps.isValid () = true ∧
    faultyCursorOps.getId () = .ok 7 ∧
    intoVertexIdsNext faultyCursorOps () =
      .ok (some (7, (faultyCursorOps.seekToNext ()).2)) :=
  ⟨rfl, rfl, errorPropagation_policy.2.2.2.2.2 Unit faultyCursorOps () 7 rfl rfl⟩

/-- Claim C10: converting a raw `Date` or `DateTime` field value back to the
Rust type is partial — `from_raw_field_data` unwraps the chrono conversion,
so it panics (`none`) exactly on day counts and second counts outside
chrono's representable range, and for every in-range raw value it is total
and reproduces the raw payload. -/
theorem fromRawFieldData_date_domain :
    (∀ days : Int,
      FieldData.fromRawFieldData (.rdate days) = none ↔ ¬ dateInRange days) ∧
    (∀ secs : Int,
      FieldData.fromRawFieldData (.rdatetime secs) = none ↔
        ¬ timestampInRange secs) ∧
    (∀ days : Int, dateInRange days →
      ∃ d : ChronoDate,
        FieldData.fromRawFieldData (.rdate days) = some (.date d) ∧
        d.days = days) ∧
    (∀ secs : Int, timestampInRange secs →
      ∃ dt : ChronoDateTime,
        FieldData.fromRawFieldData (.rdatetime secs) = some (.datetime dt) ∧
        dt.secs = secs) := by
  refine ⟨?_, ?_, ?_, ?_⟩
  · intro days
    by_cases h : dateInRange days <;>
      simp [FieldData.fromRawFieldData, dateFromRawDate, fromNumDaysFromCEOpt, h]
  · intro secs
    by_cases h : timestampInRange secs <;>
      simp [FieldData.fromRawFieldData, dateTimeFromRawDateTime,
        fromTimestampOpt, h]
  · intro days h
    refine ⟨⟨days, h⟩, ?_, rfl⟩
    simp [FieldData.fromRawFieldData, dateFromRawDate, fromNumDaysFromCEOpt, h]
  · intro secs h
    refine ⟨⟨secs, 0, h, by omega⟩, ?_, rfl⟩
    simp [FieldData.fromRawFieldData, dateTimeFromRawDateTime,
      fromTimestampOpt, h]

/-- Claim C10 witness: the epoch day count 719163 is in range and converts
totally; one past chrono's maximal day count is out of range and the
conversion panics. -/
theorem fromRawFieldData_date_domain_witness :
    dateInRange 719163 ∧
    (∃ d : ChronoDate,
      FieldData.fromRawFieldData (.rdate 719163) = some (.date d) ∧
      d.days = 719163) ∧
    ¬ dateInRange (chronoMaxDays + 1) ∧
    FieldData.fromRawFieldData (.rdate (chronoMaxDays + 1)) = none :=
  ⟨by decide, fromRawFieldData_date_domain.2.2.1 719163 (by decide),
   by decide,
   (fromRawFieldData_date_domain.1 (chronoMaxDays + 1)).mpr (by decide)⟩

/-- Claim C5, counterexample: a `DateTime` carrying subsecond nanoseconds
does not round-trip — only the whole-second `timestamp()` crosses the
foreign boundary, so 1970-01-01 00:00:00.500 comes back truncated to
1970-01-01 00:00:00. -/
theorem roundTrip_datetime_truncates :
    FieldData.roundTrip (.datetime halfPastEpoch) ≠
      some (.datetime halfPastEpoch) ∧
    FieldData.roundTrip (.datetime halfPastEpoch) =
      some (.datetime ⟨0, 0, by decide, by decide⟩) := by
  have key : FieldData.roundTrip (.datetime halfPastEpoch) =
      some (.datetime ⟨0, 0, by decide, by decide⟩) := by
    show FieldData.fromRawFieldData (.rdatetime halfPastEpoch.secs) = _
    simp only [FieldData.fromRawFieldData, dateTimeFromRawDateTime,
      fromTimestampOpt]
    rw [dif_pos (by decide : timestampInRange halfPastEpoch.secs)]
    rfl
  refine ⟨?_, key⟩
  rw [key]
  intro h
  have h2 := Option.some.inj h
  injection h2 with h3
  have h4 := congrArg ChronoDateTime.nsecs h3
  simp [halfPastEpoch] at h4

/-- On well-formed UTF-8 input the lossy decoder is the identity, at any
fuel at which validity holds (validity at a given fuel entails the input is
short enough for that fuel). -/
theorem utf8LossyBytesAux_of_valid (fuel : Nat) :
    ∀ l : List Nat, validUtf8Aux fuel l = true →
      utf8LossyBytesAux fuel l = l := by
  induction fuel with
  | zero =>
    intro l hval
    cases l with
    | nil => rfl
    | cons b rest => rw [validUtf8Aux] at hval; cases hval
  | succ fuel ih =>
    intro l hval
    cases l with
    | nil => rfl
    | cons b rest =>
      rw [validUtf8Aux] at hval
      rw [utf8LossyBytesAux]
      by_cases h1 : b < 0x80
      · rw [if_pos h1] at hval ⊢
        rw [ih rest hval]
      · rw [if_neg h1] at hval ⊢
        by_cases h2 : 0xC2 ≤ b ∧ b ≤ 0xDF
        · rw [if_pos h2] at hval ⊢
          cases rest with
          | nil => rw [validUtf8First] at hval; cases hval
          | cons c1 rest1 =>
            rw [validUtf8First, Bool.and_eq_true] at hval
            rw [utf8Lossy2, if_pos hval.1, ih rest1 hval.2]
        · rw [if_neg h2] at hval ⊢
          by_cases h3 : 0xE0 ≤ b ∧ b ≤ 0xEF
          · rw [if_pos h3] at hval ⊢
            cases rest with
            | nil => rw [validUtf8First] at hval; cases hval
            | cons c1 rest1 =>
              rw [validUtf8First, Bool.and_eq_true] at hval
              cases rest1 with
              | nil => rw [validUtf8First] at hval; simp at hval
              | cons c2 rest2 =>
                rw [validUtf8First, Bool.and_eq_true] at hval
                rw [utf8Lossy3, if_pos hval.1, utf8Lossy3b,
                  if_pos hval.2.1, ih rest2 hval.2.2]
          · rw [if_neg h3] at hval ⊢
            by_cases h4 : 0xF0 ≤ b ∧ b ≤ 0xF4
            · rw [if_pos h4] at hval ⊢
              cases rest with
              | nil => rw [validUtf8First] at hval; cases hval
              | cons c1 rest1 =>
                rw [validUtf8First, Bool.and_eq_true] at hval
                cases rest1 with
                | nil => rw [validUtf8First] at hval; simp at hval
                | cons c2 rest2 =>
                  rw [validUtf8First, Bool.and_eq_true] at hval
                  cases rest2 with
                  | nil =>
                    rw [validUtf8First] at hval
                    simp at hval
                  | cons c3 rest3 =>
                    rw [validUtf8First, Bool.and_eq_true] at hval
                    rw [utf8Lossy4, if_pos hval.1, utf8Lossy4b,
                      if_pos hval.2.1, utf8Lossy4c, if_pos hval.2.2.1,
                      ih rest3 hval.2.2.2]
            · rw [if_neg h4] at hval
              cases hval

/-- A well-formed UTF-8 byte list passes through
`String::from_utf8_lossy` unchanged. -/
theorem utf8LossyBytes_of_valid (l : List Nat) (h : validUtf8 l = true) :
    utf8LossyBytes l = l :=
  utf8LossyBytesAux_of_valid l.length l h

/-- A blob that is not well-formed UTF-8 is mangled by the read-back: the
single byte `0xFF` contains no zero byte, yet the round trip returns the
UTF-8 encoding of U+FFFD instead of the original byte — the boundary
behaviour that forces the UTF-8 side condition of the amended round-trip
claim. -/
theorem roundTrip_blob_lossy_mangles :
    FieldData.roundTrip (.blob [0xFF]) =
      some (.blob [0xEF, 0xBF, 0xBD]) := by
  rfl

/-- Claim C5, amended: every `FieldData` value round-trips through the
foreign representation exactly — `Int64 4294967297` and `String "x"` in
particular — provided the value survives the boundary representations the
crate uses: a `DateTime` must carry no subsecond nanoseconds (only
`timestamp()` seconds are stored), a `String` must have no interior NUL (the
`CString` conversion panics on one) and a `Blob` must contain no zero byte
(the bytes are read back through C-string decoding, which stops at the first
NUL) and be well-formed UTF-8 (the read-back also runs
`String::from_utf8_lossy`, which substitutes U+FFFD for invalid byte
sequences, e.g. turning the blob `[0xFF]` into `[0xEF, 0xBF, 0xBD]`). -/
theorem roundTrip_admissible (fd : FieldData) (h : fd.admissible) :
    fd.roundTrip = some fd := by
  cases fd with
  | null => rfl
  | boolean b => rfl
  | int8 i => rfl
  | int16 i => rfl
  | int32 i => rfl
  | int64 i => rfl
  | float bits => rfl
  | double bits => rfl
  | date d =>
    show FieldData.fromRawFieldData (.rdate d.asRawDate) = some (.date d)
    simp only [FieldData.fromRawFieldData, dateFromRawDate,
      fromNumDaysFromCEOpt, ChronoDate.asRawDate]
    rw [dif_pos d.valid]
    rfl
  | datetime dt =>
    have h0 : dt.nsecs = 0 := h
    show FieldData.fromRawFieldData (.rdatetime dt.asRawDateTime) =
      some (.datetime dt)
    simp only [FieldData.fromRawFieldData, dateTimeFromRawDateTime,
      fromTimestampOpt, ChronoDateTime.asRawDateTime]
    rw [dif_pos dt.validSecs]
    cases dt with
    | mk s n vs vn =>
      simp only at h0
      subst h0
      rfl
  | str s =>
    have h0 : ¬ stringHasNul s := h
    show (FieldData.asRawFieldData (.str s)).bind FieldData.fromRawFieldData =
      some (.str s)
    simp only [FieldData.asRawFieldData]
    rw [if_neg h0]
    rfl
  | blob bytes =>
    have h0 : (0 : Nat) ∉ bytes ∧ validUtf8 bytes = true := h
    show FieldData.fromRawFieldData (.rblob bytes) = some (.blob bytes)
    have htw : readCString bytes = bytes := by
      unfold readCString
      rw [List.takeWhile_eq_self_iff]
      intro x hx
      simp only [ne_eq, decide_not, Bool.not_eq_true',
        decide_eq_false_iff_not]
      intro hx0
      exact h0.1 (hx0 ▸ hx)
    simp only [FieldData.fromRawFieldData]
    rw [htw, utf8LossyBytes_of_valid bytes h0.2]

/-- Claim C5 witness: the claim's own examples round-trip —
`Int64 4294967297` exactly and `String "x"` byte-for-byte. -/
theorem roundTrip_admissible_witness :
    (FieldData.int64 4294967297).admissible ∧
    (FieldData.int64 4294967297).roundTrip = some (.int64 4294967297) ∧
    (FieldData.str "x").admissible ∧
    (FieldData.str "x").roundTrip = some (.str "x") :=
  ⟨trivial, roundTrip_admissible (.int64 4294967297) trivial,
   by decide, roundTrip_admissible (.str "x") (by decide)⟩

/-- Claim C8: deleting a vertex label the schema has succeeds with success
flag `true` and a modified-count equal to the number of live vertices
carrying the label, all of which are removed along with the label. -/
theorem graphDeleteVertexLabel_spec (g : GraphState) (label : String)
    (h : label ∈ g.labels) :
    ∃ (n : Nat) (g' : GraphState),
      graphDeleteVertexLabel g label = .ok ((true, n), g') ∧
      n = g.vertices.countP (fun v => v.2 = label) ∧
      g'.vertices.countP (fun v => v.2 = label) = 0 ∧
      g'.vertices.length + n = g.vertices.length := by
  refine ⟨(g.vertices.filter (fun v => v.2 = label)).length,
    ⟨g.labels.erase label, g.vertices.filter (fun v => ¬ v.2 = label)⟩,
    ?_, ?_, ?_, ?_⟩
  · unfold graphDeleteVertexLabel
    rw [if_pos h]
  · exact (List.countP_eq_length_filter _ _).symm
  · rw [List.countP_eq_zero]
    intro a ha
    have := (List.mem_filter.mp ha).2
    simpa using this
  · have hsplit := List.length_eq_length_filter_add
      (l := g.vertices) (fun v => v.2 = label)
    simp only [decide_not]
    omega

/-- Claim C8 witness: deleting label "person" from a graph holding two
"person" vertices and one "city" vertex reports `(true, 2)`. -/
theorem graphDeleteVertexLabel_spec_witness :
    "person" ∈ (GraphState.mk ["person", "city"]
      [(1, "person"), (2, "city"), (3, "person")]).labels ∧
    ∃ (n : Nat) (g' : GraphState),
      graphDeleteVertexLabel
        (GraphState.mk ["person", "city"]
          [(1, "person"), (2, "city"), (3, "person")]) "person" =
        .ok ((true, n), g') ∧
      n = ((GraphState.mk ["person", "city"]
          [(1, "person"), (2, "city"), (3, "person")]).vertices.countP
        (fun v => v.2 = "person")) ∧
      g'.vertices.countP (fun v => v.2 = "person") = 0 ∧
      g'.vertices.length + n =
        (GraphState.mk ["person", "city"]
          [(1, "person"), (2, "city"), (3, "person")]).vertices.length :=
  ⟨by decide, graphDeleteVertexLabel_spec _ "person" (by decide)⟩

/-- Advancing never changes the vertex sequence, only the position. -/
theorem next_verts (c : RawVertexCursor) : c.next.2.verts = c.verts := by
  unfold RawVertexCursor.next
  split <;> rfl

/-- The position after one advance. -/
theorem next_pos (c : RawVertexCursor) :
    c.next.2.pos =
      if c.pos + 1 < c.verts.length then c.pos + 1 else c.verts.length := by
  unfold RawVertexCursor.next
  split <;> simp_all

/-- Iterated advancing never changes the vertex sequence. -/
theorem advanceN_verts (c : RawVertexCursor) (k : Nat) :
    (advanceN c k).verts = c.verts := by
  induction k generalizing c with
  | zero => rfl
  | succ k ih =>
    show (advanceN c.next.2 k).verts = c.verts
    rw [ih, next_verts]

/-- The position after `k` advances from a position inside the sequence:
the cursor walks forward one element per call and then saturates at the
Invalid position. -/
theorem advanceN_pos (k : Nat) (c : RawVertexCursor)
    (h : c.pos ≤ c.verts.length) :
    (advanceN c k).pos = min (c.pos + k) c.verts.length := by
  induction k generalizing c with
  | zero => simp [advanceN, Nat.min_eq_left h]
  | succ k ih =>
    show (advanceN c.next.2 k).pos = _
    have hv := next_verts c
    have hp := next_pos c
    have hle : c.next.2.pos ≤ c.next.2.verts.length := by
      rw [hv, hp]; split <;> omega
    rw [ih c.next.2 hle, hv, hp]
    split <;> omega

/-- A cursor whose position already is the Invalid saturation point is left
unchanged by the saturating update. -/
theorem cursor_eta (c : RawVertexCursor) (h : c.pos = c.verts.length) :
    ({ c with pos := c.verts.length } : RawVertexCursor) = c := by
  cases c
  simp_all

/-- Claim C4: a vertex cursor freshly created over `N ≥ 1` vertices is
valid; each of the first `N - 1` advances leaves it valid and exactly `N`
advances reach the Invalid state; one further `seek_to_next` on the Invalid
cursor is a no-op returning `Ok(None)` (the flag is `false` and the state is
unchanged). -/
theorem vertexCursor_advance_exhausts (verts : List Vertex)
    (h : 0 < verts.length) :
    (txnVertexCur verts).isValid = true ∧
    (∀ k : Nat, k < verts.length →
      (advanceN (txnVertexCur verts) k).isValid = true) ∧
    (advanceN (txnVertexCur verts) verts.length).isValid = false ∧
    VertexCursor.seekToNext (advanceN (txnVertexCur verts) verts.length) =
      .ok (false, advanceN (txnVertexCur verts) verts.length) := by
  have hverts : ∀ k, (advanceN (txnVertexCur verts) k).verts = verts :=
    fun k => advanceN_verts (txnVertexCur verts) k
  have hpos : ∀ k,
      (advanceN (txnVertexCur verts) k).pos = min k verts.length := by
    intro k
    have := advanceN_pos k (txnVertexCur verts) (by simp [txnVertexCur])
    simpa [txnVertexCur] using this
  refine ⟨?_, ?_, ?_, ?_⟩
  · simp [txnVertexCur, RawVertexCursor.isValid, h]
  · intro k hk
    simp [RawVertexCursor.isValid, hverts, hpos]
    omega
  · simp [RawVertexCursor.isValid, hverts, hpos]
  · have h1 : (advanceN (txnVertexCur verts) verts.length).pos =
        (advanceN (txnVertexCur verts) verts.length).verts.length := by
      rw [hverts, hpos]; omega
    unfold VertexCursor.seekToNext RawVertexCursor.next
    rw [if_neg (by omega)]
    rw [cursor_eta _ h1]

/-- Claim C4 witness: over a concrete two-vertex graph the fresh cursor is
valid, two advances exhaust it, and a third is a no-op. -/
theorem vertexCursor_advance_exhausts_witness :
    0 < ([⟨1, "a", []⟩, ⟨2, "b", []⟩] : List Vertex).length ∧
    ((txnVertexCur [⟨1, "a", []⟩, ⟨2, "b", []⟩]).isValid = true ∧
    (∀ k : Nat, k < ([⟨1, "a", []⟩, ⟨2, "b", []⟩] : List Vertex).length →
      (advanceN (txnVertexCur [⟨1, "a", []⟩, ⟨2, "b", []⟩]) k).isValid =
        true) ∧
    (advanceN (txnVertexCur [⟨1, "a", []⟩, ⟨2, "b", []⟩]) 2).isValid =
      false ∧
    VertexCursor.seekToNext
        (advanceN (txnVertexCur [⟨1, "a", []⟩, ⟨2, "b", []⟩]) 2) =
      .ok (false, advanceN (txnVertexCur [⟨1, "a", []⟩, ⟨2, "b", []⟩]) 2)) :=
  ⟨by decide, vertexCursor_advance_exhausts [⟨1, "a", []⟩, ⟨2, "b", []⟩]
    (by decide)⟩

/-- Claim C6: each lazy adaptor pull first checks validity and yields `none`
on an Invalid cursor; otherwise it reads the current element's projection
(id, label and all field values for the full vertex iterator; the id alone
for the ids iterator), then advances the underlying cursor, and yields the
values read before the advance together with the advanced cursor. -/
theorem intoVertexIter_adaptor_spec :
    (∀ c : RawVertexCursor, c.isValid = false →
      intoVertexIterNext engineOps c = .ok none ∧
      intoVertexIdsNext engineOps c = .ok none) ∧
    (∀ (c : RawVertexCursor) (v : Vertex), c.current = some v →
      intoVertexIterNext engineOps c =
        .ok (some ((v.id, v.label, v.fields.map (·.2)), c.next.2)) ∧
      intoVertexIdsNext engineOps c = .ok (some (v.id, c.next.2))) := by
  constructor
  · intro c hc
    constructor <;> simp [intoVertexIterNext, intoVertexIdsNext, engineOps, hc]
  · intro c v hv
    have hvalid : c.isValid = true := by
      unfold RawVertexCursor.current at hv
      obtain ⟨hlt, -⟩ := List.get?_eq_some.mp hv
      simp [RawVertexCursor.isValid, hlt]
    have hv' : c.verts[c.pos]? = some v := by
      rw [← List.get?_eq_getElem?]
      exact hv
    constructor <;>
      simp [intoVertexIterNext, intoVertexIdsNext, engineOps,
        RawVertexCursor.current, hvalid, hv']

/-- Claim C6 witness: a pull on a concrete single-vertex cursor yields the
vertex's projection and the advanced (now Invalid) cursor. -/
theorem intoVertexIter_adaptor_spec_witness :
    (txnVertexCur [⟨5, "n", []⟩]).current = some ⟨5, "n", []⟩ ∧
    (intoVertexIterNext engineOps (txnVertexCur [⟨5, "n", []⟩]) =
      .ok (some ((5, "n", ([] : List (String × FieldData)).map (·.2)),
        (txnVertexCur [⟨5, "n", []⟩]).next.2)) ∧
    intoVertexIdsNext engineOps (txnVertexCur [⟨5, "n", []⟩]) =
      .ok (some (5, (txnVertexCur [⟨5, "n", []⟩]).next.2))) :=
  ⟨rfl, intoVertexIter_adaptor_spec.2 (txnVertexCur [⟨5, "n", []⟩])
    ⟨5, "n", []⟩ rfl⟩

/-- The index `findGeIdx` never points past the end of the list. -/
theorem findGeIdx_le (vid : Int) :
    ∀ vs : List Vertex, findGeIdx vid vs ≤ vs.length := by
  intro vs
  induction vs with
  | nil => simp [findGeIdx]
  | cons a t ih =>
    unfold findGeIdx
    split
    · simp
    · simpa using ih

/-- The vertex at `findGeIdx`, when there is one, has id `≥ vid`. -/
theorem findGeIdx_ge (vid : Int) (vs : List Vertex) (v : Vertex)
    (h : vs.get? (findGeIdx vid vs) = some v) : vid ≤ v.id := by
  induction vs with
  | nil => simp [findGeIdx] at h
  | cons a t ih =>
    unfold findGeIdx at h
    by_cases hle : vid ≤ a.id
    · rw [if_pos hle] at h
      simp only [List.get?_cons_zero, Option.some.injEq] at h
      exact h ▸ hle
    · rw [if_neg hle] at h
      exact ih (by simpa using h)

/-- Every vertex strictly before `findGeIdx` has id `< vid`. -/
theorem findGeIdx_before (vid : Int) (vs : List Vertex) :
    ∀ (j : Nat) (w : Vertex), j < findGeIdx vid vs → vs.get? j = some w →
      w.id < vid := by
  induction vs with
  | nil => simp [findGeIdx]
  | cons a t ih =>
    intro j w hj hw
    unfold findGeIdx at hj
    by_cases hle : vid ≤ a.id
    · rw [if_pos hle] at hj
      omega
    · rw [if_neg hle] at hj
      cases j with
      | zero =>
        simp only [List.get?_cons_zero, Option.some.injEq] at hw
        subst hw
        omega
      | succ j => exact ih j w (by omega) (by simpa using hw)

/-- When `findGeIdx` points past the end, every vertex has id `< vid`. -/
theorem findGeIdx_none (vid : Int) (vs : List Vertex)
    (h : vs.length ≤ findGeIdx vid vs) : ∀ w ∈ vs, w.id < vid := by
  intro w hw
  obtain ⟨j, hj⟩ := List.get?_of_mem hw
  obtain ⟨hjlt, -⟩ := List.get?_eq_some.mp hj
  exact findGeIdx_before vid vs j w (by omega) hj

/-- Monotonicity of ids along a sorted vertex list, in `get?` form. -/
theorem pairwise_get?_lt (vs : List Vertex)
    (hs : vs.Pairwise (fun a b => a.id < b.id)) (i j : Nat) (x y : Vertex)
    (hij : i < j) (hi : vs.get? i = some x) (hj : vs.get? j = some y) :
    x.id < y.id := by
  obtain ⟨hi', hx⟩ := List.get?_eq_some.mp hi
  obtain ⟨hj', hy⟩ := List.get?_eq_some.mp hj
  have := (List.pairwise_iff_get.mp hs) ⟨i, hi'⟩ ⟨j, hj'⟩ hij
  rw [hx, hy] at this
  exact this

/-- On a sorted list, if a vertex with exactly id `vid` exists then
`findGeIdx` lands on it. -/
theorem findGeIdx_exact (vid : Int) (vs : List Vertex)
    (hs : vs.Pairwise (fun a b => a.id < b.id)) (u : Vertex) (hu : u ∈ vs)
    (huid : u.id = vid) :
    ∃ v, vs.get? (findGeIdx vid vs) = some v ∧ v.id = vid := by
  obtain ⟨j, hj⟩ := List.get?_of_mem hu
  obtain ⟨hjlt, -⟩ := List.get?_eq_some.mp hj
  have hji : findGeIdx vid vs ≤ j := by
    by_contra hcon
    have := findGeIdx_before vid vs j u (by omega) hj
    omega
  have hilt : findGeIdx vid vs < vs.length := by omega
  have hv : vs.get? (findGeIdx vid vs) =
      some (vs.get ⟨findGeIdx vid vs, hilt⟩) := List.get?_eq_get hilt
  refine ⟨vs.get ⟨findGeIdx vid vs, hilt⟩, hv, ?_⟩
  have hge : vid ≤ (vs.get ⟨findGeIdx vid vs, hilt⟩).id :=
    findGeIdx_ge vid vs _ hv
  rcases eq_or_lt_of_le hji with heq | hlt
  · have hju : vs.get? (findGeIdx vid vs) = some u := heq ▸ hj
    rw [hv] at hju
    have := Option.some.inj hju
    rw [this, huid]
  · have := pairwise_get?_lt vs hs (findGeIdx vid vs) j _ u hlt hv hj
    omega

/-- Case analysis of `goto`: either no vertex has id `≥ vid` and the cursor
is invalidated, or `findGeIdx` found a vertex and the guard
`v.id = vid ∨ nearest` decides between landing there and invalidation. -/
theorem goto_cases (c : RawVertexCursor) (vid : Int) (nearest : Bool) :
    (c.verts.get? (findGeIdx vid c.verts) = none ∧
      (c.goto vid nearest).2 = { c with pos := c.verts.length }) ∨
    (∃ v, c.verts.get? (findGeIdx vid c.verts) = some v ∧
      (v.id = vid ∨ nearest = true) ∧
      (c.goto vid nearest).2 = { c with pos := findGeIdx vid c.verts }) ∨
    (∃ v, c.verts.get? (findGeIdx vid c.verts) = some v ∧
      ¬ (v.id = vid ∨ nearest = true) ∧
      (c.goto vid nearest).2 = { c with pos := c.verts.length }) := by
  rcases hget : c.verts.get? (findGeIdx vid c.verts) with - | v
  · left
    refine ⟨rfl, ?_⟩
    unfold RawVertexCursor.goto
    simp only [hget]
  · by_cases hcond : v.id = vid ∨ nearest = true
    · right; left
      refine ⟨v, rfl, hcond, ?_⟩
      unfold RawVertexCursor.goto
      simp only [hget, if_pos hcond]
    · right; right
      refine ⟨v, rfl, hcond, ?_⟩
      unfold RawVertexCursor.goto
      simp only [hget, if_neg hcond]

/-- Claim C1: seek semantics of the vertex cursor over the id-ordered
sequence.  If a vertex with exactly id `vid` exists, `seek(vid, nearest)`
lands on it and the cursor is Valid; if none exists and `nearest` is true,
the cursor lands on the vertex with the smallest id `≥ vid` when there is
one and is invalidated otherwise; if none exists and `nearest` is false,
the cursor is invalidated. -/
theorem vertexCursor_seek_spec (c : RawVertexCursor) (vid : Int)
    (nearest : Bool) (hs : c.verts.Pairwise (fun a b => a.id < b.id)) :
    ∃ c' : RawVertexCursor, VertexCursor.seek c vid nearest = .ok c' ∧
      c'.verts = c.verts ∧
      ((∃ v ∈ c.verts, v.id = vid) →
        c'.isValid = true ∧ ∃ v, c'.current = some v ∧ v.id = vid) ∧
      ((∀ v ∈ c.verts, v.id ≠ vid) → nearest = true →
        ((∃ v ∈ c.verts, vid ≤ v.id) →
          ∃ v, c'.current = some v ∧ vid ≤ v.id ∧
            ∀ w ∈ c.verts, vid ≤ w.id → v.id ≤ w.id) ∧
        ((∀ v ∈ c.verts, v.id < vid) → c'.isValid = false)) ∧
      ((∀ v ∈ c.verts, v.id ≠ vid) → nearest = false →
        c'.isValid = false) := by
  refine ⟨(c.goto vid nearest).2, rfl, ?_, ?_, ?_, ?_⟩
  · -- the vertex sequence is unchanged
    rcases goto_cases c vid nearest with ⟨-, hc'⟩ | ⟨v, -, -, hc'⟩ |
      ⟨v, -, -, hc'⟩ <;> rw [hc']
  · -- an exact match exists: the cursor lands on it, Valid
    rintro ⟨u, hu, huid⟩
    obtain ⟨v', hv', hv'id⟩ := findGeIdx_exact vid c.verts hs u hu huid
    rcases goto_cases c vid nearest with ⟨hget, hc'⟩ | ⟨v, hget, -, hc'⟩ |
      ⟨v, hget, hcond, hc'⟩
    · rw [hget] at hv'
      exact absurd hv' (by simp)
    · rw [hget] at hv'
      obtain rfl := Option.some.inj hv'
      have hlt := (List.get?_eq_some.mp hget).1
      refine ⟨by rw [hc']; simp [RawVertexCursor.isValid, hlt], v, ?_, hv'id⟩
      rw [hc']
      show c.verts.get? (findGeIdx vid c.verts) = some v
      exact hget
    · rw [hget] at hv'
      obtain rfl := Option.some.inj hv'
      exact absurd (Or.inl hv'id) hcond
  · -- no exact match, nearest = true
    intro hnoexact hnear
    rcases goto_cases c vid nearest with ⟨hget, hc'⟩ | ⟨v, hget, -, hc'⟩ |
      ⟨v, hget, hcond, hc'⟩
    · -- findGeIdx found nothing: every id is < vid
      have hall := findGeIdx_none vid c.verts (List.get?_eq_none.mp hget)
      constructor
      · rintro ⟨u, hu, huge⟩
        have := hall u hu
        omega
      · intro _
        rw [hc']
        simp [RawVertexCursor.isValid]
    · -- findGeIdx found v: v is the least vertex with id ≥ vid
      have hge := findGeIdx_ge vid c.verts v hget
      have hvmem := List.get?_mem hget
      constructor
      · intro _
        refine ⟨v, ?_, hge, ?_⟩
        · rw [hc']
          show c.verts.get? (findGeIdx vid c.verts) = some v
          exact hget
        · intro w hw hwge
          obtain ⟨j, hj⟩ := List.get?_of_mem hw
          rcases Nat.lt_or_ge j (findGeIdx vid c.verts) with hjlt | hjge
          · have := findGeIdx_before vid c.verts j w hjlt hj
            omega
          · rcases Nat.eq_or_lt_of_le hjge with heq | hjgt
            · rw [← heq] at hj
              obtain rfl := Option.some.inj (hget.symm.trans hj)
              omega
            · have := pairwise_get?_lt c.verts hs _ _ _ _ hjgt hget hj
              omega
      · intro hless
        have := hless v hvmem
        have := findGeIdx_ge vid c.verts v hget
        omega
    · exact absurd (Or.inr hnear) hcond
  · -- no exact match, nearest = false: the cursor is invalidated
    intro hnoexact hnear
    rcases goto_cases c vid nearest with ⟨hget, hc'⟩ | ⟨v, hget, hcond, hc'⟩ |
      ⟨v, hget, hcond, hc'⟩
    · rw [hc']
      simp [RawVertexCursor.isValid]
    · rcases hcond with hvid | htrue
      · exact absurd hvid (hnoexact v (List.get?_mem hget))
      · rw [hnear] at htrue
        exact absurd htrue (by simp)
    · rw [hc']
      simp [RawVertexCursor.isValid]

/-- Claim C1 witness: over the sorted id sequence 1, 3, 5 the seek contract
holds, instantiated at target id 3 with `nearest = true`. -/
theorem vertexCursor_seek_spec_witness :
    (([⟨1, "a", []⟩, ⟨3, "b", []⟩, ⟨5, "c", []⟩] : List Vertex).Pairwise
      (fun a b => a.id < b.id)) ∧
    (∃ c' : RawVertexCursor,
      VertexCursor.seek ⟨[⟨1, "a", []⟩, ⟨3, "b", []⟩, ⟨5, "c", []⟩], 0⟩ 3
          true = .ok c' ∧
      c'.verts = [⟨1, "a", []⟩, ⟨3, "b", []⟩, ⟨5, "c", []⟩] ∧
      ((∃ v ∈ ([⟨1, "a", []⟩, ⟨3, "b", []⟩, ⟨5, "c", []⟩] : List Vertex),
          v.id = 3) →
        c'.isValid = true ∧ ∃ v, c'.current = some v ∧ v.id = 3) ∧
      ((∀ v ∈ ([⟨1, "a", []⟩, ⟨3, "b", []⟩, ⟨5, "c", []⟩] : List Vertex),
          v.id ≠ 3) → true = true →
        ((∃ v ∈ ([⟨1, "a", []⟩, ⟨3, "b", []⟩, ⟨5, "c", []⟩] : List Vertex),
            3 ≤ v.id) →
          ∃ v, c'.current = some v ∧ 3 ≤ v.id ∧
            ∀ w ∈ ([⟨1, "a", []⟩, ⟨3, "b", []⟩, ⟨5, "c", []⟩] : List Vertex),
              3 ≤ w.id → v.id ≤ w.id) ∧
        ((∀ v ∈ ([⟨1, "a", []⟩, ⟨3, "b", []⟩, ⟨5, "c", []⟩] : List Vertex),
            v.id < 3) → c'.isValid = false)) ∧
      ((∀ v ∈ ([⟨1, "a", []⟩, ⟨3, "b", []⟩, ⟨5, "c", []⟩] : List Vertex),
          v.id ≠ 3) → true = false → c'.isValid = false)) := by
  have hsorted : (([⟨1, "a", []⟩, ⟨3, "b", []⟩, ⟨5, "c", []⟩] :
      List Vertex).Pairwise (fun a b => a.id < b.id)) := by
    simp [List.pairwise_cons]
  exact ⟨hsorted, vertexCursor_seek_spec
    ⟨[⟨1, "a", []⟩, ⟨3, "b", []⟩, ⟨5, "c", []⟩], 0⟩ 3 true hsorted⟩

end Tugraph
